import Mathlib

/-!
Verification development for the TI SCI transaction layer
(drivers/firmware/ti_sci.c): the xfer slot pool, its allocation bitmap,
the counting semaphore bounding concurrent messages, the receive
callback, and the synchronous exchange built on them.

Machine integers are modelled as `Nat` with explicit `% 2^w` at the
points where the C code performs a narrowing cast (the `(u8)` casts).
The bitmap `unsigned long *xfer_alloc_table` of `max_msgs` bits is a
`List Bool` of that length; `find_first_zero_bit`, `set_bit`,
`clear_bit` and `test_bit` are the list functions below.
-/

/-- Total indexed read with a default, mirroring C array access on the
fixed-size tables (out-of-range reads yield the default). -/
def nth {α : Type} (d : α) : List α → Nat → α
  | [], _ => d
  | x :: _, 0 => x
  | _ :: xs, n + 1 => nth d xs n

/-- Write element `i`; out-of-range writes are dropped (they correspond
to accesses the driver never performs on reachable states). -/
def setNth {α : Type} : List α → Nat → α → List α
  | [], _, _ => []
  | _ :: xs, 0, y => y :: xs
  | x :: xs, n + 1, y => x :: setNth xs n y

/-- Update element `i` in place. -/
def modifyNth {α : Type} (f : α → α) : List α → Nat → List α
  | [], _ => []
  | x :: xs, 0 => f x :: xs
  | x :: xs, n + 1 => x :: modifyNth f xs n

/-- Number of set bits in the allocation bitmap. -/
def countTrue : List Bool → Nat
  | [] => 0
  | b :: bs => (if b then 1 else 0) + countTrue bs

/-- `find_first_zero_bit` over a bitmap of `l.length` bits: index of the
first clear bit, or the bitmap size when every bit is set (the contract
of the Linux helper). -/
def find_first_zero_bit : List Bool → Nat
  | [] => 0
  | b :: bs => if b then find_first_zero_bit bs + 1 else 0

/-- Linux error number EINVAL. -/
def EINVAL : Int := 22
/-- Linux error number ERANGE. -/
def ERANGE : Int := 34
/-- Linux error number ETIME (returned by `down_timeout` on timeout). -/
def ETIME : Int := 62
/-- Linux error number ETIMEDOUT. -/
def ETIMEDOUT : Int := 110

/-- Modelled from the spec: `struct ti_sci_msg_hdr` lives in ti_sci.h,
which is not part of the sources here.  Per the wire-message description
(type, host, seq, flags, all fixed width) and the dump format
`type=0x%04x host=0x%02x seq=0x%02x flags=0x%08x`, the fields are a
16-bit type, an 8-bit host, an 8-bit seq and 32-bit flags, in that
order; hence `sizeof(struct ti_sci_msg_hdr) = 8` and the seq byte sits
at offset 3 of the message. -/
structure ti_sci_msg_hdr where
  type : Nat
  host : Nat
  seq : Nat
  flags : Nat
deriving DecidableEq

/-- `sizeof(struct ti_sci_msg_hdr)`: 2 + 1 + 1 + 4 bytes. -/
def hdrSize : Nat := 8

/-- Byte offset of the `seq` field inside the header. -/
def seqOffset : Nat := 3

/-- Modelled from the spec: `struct ti_msgmgr_message` (linux/ti-msgmgr.h,
not in the sources) as used by this driver: a length and a byte buffer.
`buf` is the physical backing store handed over by the mailbox; `len`
is the length of the message it carries, which may be shorter than the
backing store. -/
structure ti_msgmgr_message where
  len : Nat
  buf : List Nat
deriving DecidableEq

/-- The sequence id the receive path reads out of a raw message:
the byte at `seqOffset` of the buffer (a u8, hence `% 256`).  Note the
C code performs this read unconditionally, before any length check. -/
def msgSeq (m : ti_msgmgr_message) : Nat :=
  nth 0 m.buf seqOffset % 256

/-- One message flow (`struct ti_sci_xfer`): the stamped transmit
header and length, the expected receive length (`u8 rx_len`), the
scratch buffer shared by tx and rx, and the completion (`done`,
modelled as a flag: armed = false, completed = true). -/
structure ti_sci_xfer where
  txHdr : ti_sci_msg_hdr
  tx_message_len : Nat
  rx_len : Nat
  xfer_buf : List Nat
  done : Bool
deriving DecidableEq

/-- Default xfer used for out-of-range reads of the slot array. -/
def xfer0 : ti_sci_xfer :=
  { txHdr := { type := 0, host := 0, seq := 0, flags := 0 }
  , tx_message_len := 0, rx_len := 0, xfer_buf := [], done := false }

/-- `struct ti_sci_xfers_info`: semaphore count, allocation bitmap
(`max_msgs` bits) and the preallocated message array. -/
structure ti_sci_xfers_info where
  sem_xfer_count : Nat
  xfer_alloc_table : List Bool
  xfer_block : List ti_sci_xfer
deriving DecidableEq

/-- `struct ti_sci_desc`: SoC integration description. -/
structure ti_sci_desc where
  host_id : Nat
  max_rx_timeout_ms : Nat
  max_msgs : Nat
  max_msg_size : Nat
deriving DecidableEq

/-- The one description compiled into the driver (K2G). -/
def ti_sci_pmmc_k2g_desc : ti_sci_desc :=
  { host_id := 2, max_rx_timeout_ms := 200, max_msgs := 128, max_msg_size := 64 }

/-- Which return path `ti_sci_rx_callback` takes: the three log-and-return
discard paths, or the accepting path that copies and completes. -/
inductive RxResult where
  | notExpected
  | tooLong
  | tooShort
  | accepted
deriving DecidableEq

/-- `ti_sci_rx_callback`: reads `hdr->seq` from the raw buffer, discards
if the allocation-table bit is clear, then length-validates against
`max_msg_size` and the slot's `rx_len`, and on success copies `rx_len`
bytes into the slot's scratch buffer and completes `done`. -/
def ti_sci_rx_callback (max_msg_size : Nat) (minfo : ti_sci_xfers_info)
    (mbox_msg : ti_msgmgr_message) : ti_sci_xfers_info × RxResult :=
  let xfer_id := msgSeq mbox_msg
  if nth false minfo.xfer_alloc_table xfer_id = false then
    (minfo, RxResult.notExpected)
  else
    let xfer := nth xfer0 minfo.xfer_block xfer_id
    if max_msg_size < mbox_msg.len then
      (minfo, RxResult.tooLong)
    else if mbox_msg.len < xfer.rx_len then
      (minfo, RxResult.tooShort)
    else
      let xfer1 := { xfer with
        xfer_buf := mbox_msg.buf.take xfer.rx_len ++ xfer.xfer_buf.drop xfer.rx_len
      , done := true }
      ({ minfo with xfer_block := setNth minfo.xfer_block xfer_id xfer1 },
       RxResult.accepted)

/-- Result of `ti_sci_get_one_xfer`: a slot index, or an `ERR_PTR` code. -/
inductive AllocResult where
  | ok (xfer_id : Nat)
  | err (e : Int)
deriving DecidableEq

/-- `ti_sci_get_one_xfer`: range-check the sizes (note the duplicated
`rx_message_size < sizeof(*hdr)` disjunct, exactly as in the source),
acquire the counting semaphore (failure modelled as the semaphore
count being exhausted, returning `-ETIME` as `down_timeout` does),
take the first clear bit, set it, and prepare the slot: stamp the
header, record tx length and `(u8)rx_message_size`, re-arm `done`. -/
def ti_sci_get_one_xfer (max_msg_size host_id : Nat)
    (minfo : ti_sci_xfers_info)
    (msg_type msg_flags tx_message_size rx_message_size : Nat) :
    ti_sci_xfers_info × AllocResult :=
  if max_msg_size < rx_message_size ∨ max_msg_size < tx_message_size ∨
     rx_message_size < hdrSize ∨ rx_message_size < hdrSize then
    (minfo, AllocResult.err (-ERANGE))
  else if minfo.sem_xfer_count = 0 then
    (minfo, AllocResult.err (-ETIME))
  else
    let bit_pos := find_first_zero_bit minfo.xfer_alloc_table
    let xfer_id := bit_pos % 256
    let upd := fun xfer => { xfer with
        tx_message_len := tx_message_size
      , rx_len := rx_message_size % 256
      , done := false
      , txHdr := { type := msg_type, host := host_id, seq := xfer_id
                 , flags := msg_flags } }
    ({ sem_xfer_count := minfo.sem_xfer_count - 1
     , xfer_alloc_table := setNth minfo.xfer_alloc_table bit_pos true
     , xfer_block := modifyNth upd minfo.xfer_block xfer_id },
     AllocResult.ok xfer_id)

/-- `ti_sci_put_one_xfer` on the xfer at index `i` of the block: reads
the sequence id back out of the stamped header, clears that bit, and
unconditionally `up`s the semaphore. -/
def ti_sci_put_one_xfer (minfo : ti_sci_xfers_info) (i : Nat) :
    ti_sci_xfers_info :=
  let xfer_id := (nth xfer0 minfo.xfer_block i).txHdr.seq
  { minfo with
    xfer_alloc_table := setNth minfo.xfer_alloc_table xfer_id false
  , sem_xfer_count := minfo.sem_xfer_count + 1 }

/-- Environment of one `ti_sci_do_xfer` run: the `mbox_send_message`
return value and whether the slot's completion was signalled within
the `max_rx_timeout_ms` wait. -/
structure XferEnv where
  sendRet : Int
  replyArrives : Bool
deriving DecidableEq

/-- `ti_sci_do_xfer`: propagate a negative send result; otherwise wait
for completion and return `-ETIMEDOUT` when it does not arrive, 0 when
it does.  The function releases nothing: reclamation is the caller's
job. -/
def ti_sci_do_xfer (env : XferEnv) : Int :=
  if env.sendRet < 0 then env.sendRet
  else if env.replyArrives then 0
  else -ETIMEDOUT

/-- Modelled from the spec: `TI_SCI_MSG_VERSION` and
`struct ti_sci_msg_resp_version` come from ti_sci.h, which is not in
the sources.  The response is a fixed-size message - header plus the
version fields (a 32-byte description string and three 16-bit words) -
whose exact size only matters through `hdrSize ≤ size ≤ max_msg_size`. -/
def sizeof_ti_sci_msg_resp_version : Nat := 46

/-- Modelled from the spec: the `TI_SCI_MSG_VERSION` request type code. -/
def TI_SCI_MSG_VERSION : Nat := 2

/-- `ti_sci_cmd_get_revision`: allocate a header-only request expecting
a version response, run the exchange, and release the slot on both the
success and the failure path before returning the exchange's result
(the copy of the version fields into the handle is outside the core
model). -/
def ti_sci_cmd_get_revision (desc : ti_sci_desc)
    (minfo : ti_sci_xfers_info) (env : XferEnv) :
    ti_sci_xfers_info × Int :=
  match ti_sci_get_one_xfer desc.max_msg_size desc.host_id minfo
      TI_SCI_MSG_VERSION 0 hdrSize sizeof_ti_sci_msg_resp_version with
  | (minfo1, AllocResult.err e) => (minfo1, e)
  | (minfo1, AllocResult.ok xfer_id) =>
    let ret := ti_sci_do_xfer env
    (ti_sci_put_one_xfer minfo1 xfer_id, ret)

/-- The freshly initialised transfer-info state built by `ti_sci_probe`:
semaphore at `max_msgs`, bitmap of `max_msgs` clear bits, `max_msgs`
slots with zeroed `max_msg_size`-byte buffers and armed completions. -/
def initMsgInfo (desc : ti_sci_desc) : ti_sci_xfers_info :=
  { sem_xfer_count := desc.max_msgs
  , xfer_alloc_table := List.replicate desc.max_msgs false
  , xfer_block := List.replicate desc.max_msgs
      { xfer0 with xfer_buf := List.replicate desc.max_msg_size 0 } }

/-- Result of the modelled probe prefix. -/
inductive ProbeResult where
  | ok (minfo : ti_sci_xfers_info)
  | err (e : Int)
deriving DecidableEq

/-- Number of bytes of the header's `seq` field (a u8). -/
def sizeof_seq : Nat := 1

/-- The slice of `ti_sci_probe` that the pool depends on: the guard
`WARN_ON(desc->max_msgs >= 1 << 8 * sizeof(hdr.seq))` returning
`-EINVAL` before anything is allocated, then the pool set-up
(`bitmap_zero`, buffer allocation, `init_completion`,
`sema_init(&sem_xfer_count, desc->max_msgs)`). -/
def ti_sci_probe_init (desc : ti_sci_desc) : ProbeResult :=
  if 1 <<< (8 * sizeof_seq) ≤ desc.max_msgs then
    ProbeResult.err (-EINVAL)
  else
    ProbeResult.ok (initMsgInfo desc)

/-! ### Basic facts about the bitmap and array primitives -/

theorem length_setNth {α : Type} (l : List α) (i : Nat) (y : α) :
    (setNth l i y).length = l.length := by
  induction l generalizing i with
  | nil => rfl
  | cons x xs ih =>
    cases i with
    | zero => rfl
    | succ n => simp [setNth, ih]

theorem length_modifyNth {α : Type} (f : α → α) (l : List α) (i : Nat) :
    (modifyNth f l i).length = l.length := by
  induction l generalizing i with
  | nil => rfl
  | cons x xs ih =>
    cases i with
    | zero => rfl
    | succ n => simp [modifyNth, ih]

theorem nth_ge_length {α : Type} (d : α) (l : List α) (i : Nat)
    (h : l.length ≤ i) : nth d l i = d := by
  induction l generalizing i with
  | nil => rfl
  | cons x xs ih =>
    cases i with
    | zero => exact absurd h (by simp)
    | succ n => exact ih n (Nat.le_of_succ_le_succ h)

theorem nth_true_lt_length (l : List Bool) (i : Nat)
    (h : nth false l i = true) : i < l.length := by
  by_contra hc
  rw [nth_ge_length false l i (Nat.le_of_not_lt hc)] at h
  exact Bool.false_ne_true h

theorem nth_setNth_eq {α : Type} (d : α) (l : List α) (i : Nat) (y : α)
    (h : i < l.length) : nth d (setNth l i y) i = y := by
  induction l generalizing i with
  | nil => exact absurd h (by simp)
  | cons x xs ih =>
    cases i with
    | zero => rfl
    | succ n => exact ih n (Nat.lt_of_succ_lt_succ h)

theorem nth_setNth_ne {α : Type} (d : α) (l : List α) (i j : Nat) (y : α)
    (h : i ≠ j) : nth d (setNth l i y) j = nth d l j := by
  induction l generalizing i j with
  | nil => rfl
  | cons x xs ih =>
    cases i with
    | zero =>
      cases j with
      | zero => exact absurd rfl h
      | succ m => rfl
    | succ n =>
      cases j with
      | zero => rfl
      | succ m => exact ih n m (fun he => h (by rw [he]))

theorem nth_modifyNth_eq {α : Type} (d : α) (f : α → α) (l : List α) (i : Nat)
    (h : i < l.length) : nth d (modifyNth f l i) i = f (nth d l i) := by
  induction l generalizing i with
  | nil => exact absurd h (by simp)
  | cons x xs ih =>
    cases i with
    | zero => rfl
    | succ n => exact ih n (Nat.lt_of_succ_lt_succ h)

theorem nth_modifyNth_ne {α : Type} (d : α) (f : α → α) (l : List α)
    (i j : Nat) (h : i ≠ j) : nth d (modifyNth f l i) j = nth d l j := by
  induction l generalizing i j with
  | nil => rfl
  | cons x xs ih =>
    cases i with
    | zero =>
      cases j with
      | zero => exact absurd rfl h
      | succ m => rfl
    | succ n =>
      cases j with
      | zero => rfl
      | succ m => exact ih n m (fun he => h (by rw [he]))

theorem countTrue_le_length (l : List Bool) : countTrue l ≤ l.length := by
  induction l with
  | nil => exact Nat.le_refl 0
  | cons b bs ih =>
    cases b with
    | false => simpa [countTrue] using Nat.le_succ_of_le ih
    | true =>
      simp only [countTrue, List.length_cons, if_pos]
      omega

theorem countTrue_setNth_true (l : List Bool) (i : Nat)
    (h : nth false l i = false) (hi : i < l.length) :
    countTrue (setNth l i true) = countTrue l + 1 := by
  induction l generalizing i with
  | nil => exact absurd hi (by simp)
  | cons b bs ih =>
    cases i with
    | zero =>
      have hb : b = false := h
      subst hb
      simp [setNth, countTrue, Nat.add_comm]
    | succ n =>
      have := ih n h (Nat.lt_of_succ_lt_succ hi)
      simp [setNth, countTrue, this, Nat.add_assoc]

theorem countTrue_setNth_false (l : List Bool) (i : Nat)
    (h : nth false l i = true) :
    countTrue (setNth l i false) + 1 = countTrue l := by
  induction l generalizing i with
  | nil => exact absurd h (by simp [nth])
  | cons b bs ih =>
    cases i with
    | zero =>
      have hb : b = true := h
      subst hb
      simp [setNth, countTrue, Nat.add_comm]
    | succ n =>
      have := ih n h
      simp [setNth, countTrue, ← this, Nat.add_assoc]

theorem ffz_le_length (l : List Bool) : find_first_zero_bit l ≤ l.length := by
  induction l with
  | nil => exact Nat.le_refl 0
  | cons b bs ih =>
    cases b with
    | false => simp [find_first_zero_bit]
    | true => simpa [find_first_zero_bit] using Nat.succ_le_succ ih

theorem ffz_lt_of_countTrue_lt (l : List Bool)
    (h : countTrue l < l.length) : find_first_zero_bit l < l.length := by
  induction l with
  | nil => exact absurd h (by simp [countTrue])
  | cons b bs ih =>
    cases b with
    | false => simp [find_first_zero_bit]
    | true =>
      have hlt : countTrue bs < bs.length := by
        simp only [countTrue, List.length_cons, if_pos] at h
        omega
      simpa [find_first_zero_bit] using Nat.succ_lt_succ (ih hlt)

theorem nth_ffz (l : List Bool) (h : find_first_zero_bit l < l.length) :
    nth false l (find_first_zero_bit l) = false := by
  induction l with
  | nil => exact absurd h (by simp)
  | cons b bs ih =>
    cases b with
    | false => rfl
    | true =>
      have hlt : find_first_zero_bit bs < bs.length := by
        simpa [find_first_zero_bit] using h
      simpa [find_first_zero_bit, nth] using ih hlt

theorem nth_lt_ffz (l : List Bool) (j : Nat)
    (h : j < find_first_zero_bit l) : nth false l j = true := by
  induction l generalizing j with
  | nil => exact absurd h (by simp [find_first_zero_bit])
  | cons b bs ih =>
    cases b with
    | false => exact absurd h (by simp [find_first_zero_bit])
    | true =>
      cases j with
      | zero => rfl
      | succ m =>
        have : m < find_first_zero_bit bs := by
          simpa [find_first_zero_bit] using h
        exact ih m this

theorem setNth_ge_length {α : Type} (l : List α) (i : Nat) (y : α)
    (h : l.length ≤ i) : setNth l i y = l := by
  induction l generalizing i with
  | nil => rfl
  | cons x xs ih =>
    cases i with
    | zero => exact absurd h (by simp)
    | succ n => simp [setNth, ih n (Nat.le_of_succ_le_succ h)]

theorem setNth_setNth {α : Type} (l : List α) (i : Nat) (a b : α) :
    setNth (setNth l i a) i b = setNth l i b := by
  induction l generalizing i with
  | nil => rfl
  | cons x xs ih =>
    cases i with
    | zero => rfl
    | succ n => simp [setNth, ih]

theorem setNth_nth_self {α : Type} (d : α) (l : List α) (i : Nat)
    (h : i < l.length) : setNth l i (nth d l i) = l := by
  induction l generalizing i with
  | nil => rfl
  | cons x xs ih =>
    cases i with
    | zero => rfl
    | succ n => simp [setNth, nth, ih n (Nat.lt_of_succ_lt_succ h)]

/-! ### Inversion of a successful allocation and the receive frame -/

/-- The slot update `ti_sci_get_one_xfer` performs on the chosen xfer. -/
def allocUpd (host_id msg_type msg_flags tx_message_size rx_message_size xfer_id : Nat)
    (xfer : ti_sci_xfer) : ti_sci_xfer :=
  { xfer with
    tx_message_len := tx_message_size
  , rx_len := rx_message_size % 256
  , done := false
  , txHdr := { type := msg_type, host := host_id, seq := xfer_id
             , flags := msg_flags } }

theorem get_one_xfer_ok_shape (max_msg_size host_id : Nat)
    (m m' : ti_sci_xfers_info) (ty fl tx rx i : Nat)
    (h : ti_sci_get_one_xfer max_msg_size host_id m ty fl tx rx =
        (m', AllocResult.ok i)) :
    rx ≤ max_msg_size ∧ tx ≤ max_msg_size ∧ hdrSize ≤ rx ∧
    m.sem_xfer_count ≠ 0 ∧
    i = find_first_zero_bit m.xfer_alloc_table % 256 ∧
    m' = { sem_xfer_count := m.sem_xfer_count - 1
         , xfer_alloc_table :=
             setNth m.xfer_alloc_table (find_first_zero_bit m.xfer_alloc_table) true
         , xfer_block := modifyNth (allocUpd host_id ty fl tx rx i) m.xfer_block i } := by
  unfold ti_sci_get_one_xfer at h
  split at h
  · simp at h
  · split at h
    · simp at h
    · next hrange hsem =>
      rw [Prod.mk.injEq] at h
      obtain ⟨h1, h2⟩ := h
      cases h2
      push_neg at hrange
      exact ⟨hrange.1, hrange.2.1, hrange.2.2.1, hsem, rfl, by rw [← h1]; rfl⟩

theorem get_one_xfer_err_range (max_msg_size host_id : Nat)
    (m : ti_sci_xfers_info) (ty fl tx rx : Nat)
    (h : max_msg_size < rx ∨ max_msg_size < tx ∨ rx < hdrSize) :
    ti_sci_get_one_xfer max_msg_size host_id m ty fl tx rx =
      (m, AllocResult.err (-ERANGE)) := by
  unfold ti_sci_get_one_xfer
  rw [if_pos]
  rcases h with h | h | h
  · exact Or.inl h
  · exact Or.inr (Or.inl h)
  · exact Or.inr (Or.inr (Or.inl h))

/-- The slot content after the callback accepts a message: exactly
`rx_len` bytes copied in, the rest of the scratch buffer retained,
completion signalled. -/
def rxAccept (msg : ti_msgmgr_message) (xfer : ti_sci_xfer) : ti_sci_xfer :=
  { xfer with
    xfer_buf := msg.buf.take xfer.rx_len ++ xfer.xfer_buf.drop xfer.rx_len
  , done := true }

/-- The receive callback either leaves the state untouched (the three
discard paths) or accepts: then the only change is the copy into the
targeted slot's scratch buffer together with its completion flag. -/
theorem rx_callback_cases (max_msg_size : Nat) (m : ti_sci_xfers_info)
    (msg : ti_msgmgr_message) :
    ((ti_sci_rx_callback max_msg_size m msg).2 ≠ RxResult.accepted ∧
     (ti_sci_rx_callback max_msg_size m msg).1 = m) ∨
    ((ti_sci_rx_callback max_msg_size m msg).2 = RxResult.accepted ∧
     (ti_sci_rx_callback max_msg_size m msg).1 =
       { m with xfer_block := (setNth m.xfer_block (msgSeq msg)
           (rxAccept msg (nth xfer0 m.xfer_block (msgSeq msg)))) }) := by
  unfold ti_sci_rx_callback
  by_cases h1 : nth false m.xfer_alloc_table (msgSeq msg) = false
  · simp [h1]
  · by_cases h2 : max_msg_size < msg.len
    · simp [h1, h2]
    · by_cases h3 : msg.len < (nth xfer0 m.xfer_block (msgSeq msg)).rx_len
      · simp [h1, h2, h3]
      · right
        simp [h1, h2, h3, rxAccept]

/-- The callback accepts exactly when the sequence id's bit is set and
both length checks pass. -/
theorem rx_callback_accepted_iff (max_msg_size : Nat)
    (m : ti_sci_xfers_info) (msg : ti_msgmgr_message) :
    (ti_sci_rx_callback max_msg_size m msg).2 = RxResult.accepted ↔
    (nth false m.xfer_alloc_table (msgSeq msg) = true ∧
     msg.len ≤ max_msg_size ∧
     (nth xfer0 m.xfer_block (msgSeq msg)).rx_len ≤ msg.len) := by
  unfold ti_sci_rx_callback
  by_cases h1 : nth false m.xfer_alloc_table (msgSeq msg) = false
  · simp [h1]
  · rw [Bool.not_eq_false] at h1
    by_cases h2 : max_msg_size < msg.len
    · simp only [h1, Bool.true_eq_false, if_neg, if_pos h2]
      simp [h1]
      omega
    · by_cases h3 : msg.len < (nth xfer0 m.xfer_block (msgSeq msg)).rx_len
      · simp [h1, h2, h3]
      · simp [h1, h2, h3]
        omega

theorem rx_callback_frame (max_msg_size : Nat) (m : ti_sci_xfers_info)
    (msg : ti_msgmgr_message) :
    (ti_sci_rx_callback max_msg_size m msg).1.sem_xfer_count = m.sem_xfer_count ∧
    (ti_sci_rx_callback max_msg_size m msg).1.xfer_alloc_table = m.xfer_alloc_table ∧
    (ti_sci_rx_callback max_msg_size m msg).1.xfer_block.length = m.xfer_block.length ∧
    ∀ j : Nat,
      (nth xfer0 (ti_sci_rx_callback max_msg_size m msg).1.xfer_block j).txHdr =
        (nth xfer0 m.xfer_block j).txHdr ∧
      (nth xfer0 (ti_sci_rx_callback max_msg_size m msg).1.xfer_block j).rx_len =
        (nth xfer0 m.xfer_block j).rx_len := by
  rcases rx_callback_cases max_msg_size m msg with ⟨-, h⟩ | ⟨-, h⟩ <;> rw [h]
  · exact ⟨rfl, rfl, rfl, fun j => ⟨rfl, rfl⟩⟩
  · refine ⟨rfl, rfl, length_setNth _ _ _, fun j => ?_⟩
    by_cases hj : msgSeq msg = j
    · subst hj
      by_cases hlt : msgSeq msg < m.xfer_block.length
      · rw [nth_setNth_eq _ _ _ _ hlt]
        exact ⟨rfl, rfl⟩
      · rw [setNth_ge_length _ _ _ (Nat.le_of_not_lt hlt)]
        exact ⟨rfl, rfl⟩
    · rw [nth_setNth_ne _ _ _ _ _ hj]
      exact ⟨rfl, rfl⟩

/-! ### Reachable states of the pool and the central invariant -/

theorem countTrue_replicate_false (n : Nat) :
    countTrue (List.replicate n false) = 0 := by
  induction n with
  | zero => rfl
  | succ k ih => simpa [List.replicate, countTrue] using ih

theorem nth_replicate_false (n i : Nat) :
    nth false (List.replicate n false) i = false := by
  induction n generalizing i with
  | zero => rfl
  | succ k ih =>
    cases i with
    | zero => rfl
    | succ j => simpa [List.replicate, nth] using ih j

/-- States of the transfer pool reachable from `ti_sci_probe`'s fresh
state by any interleaving of the pool operations: an allocation that
succeeds, a release of a handle whose allocation bit is currently set
(the exactly-paired discipline every call site of the driver follows),
and a receive-callback invocation with an arbitrary inbound message.
The locked sections are atomic, so every concurrent execution
linearises to such a sequence. -/
inductive Reach (desc : ti_sci_desc) : ti_sci_xfers_info → Prop where
  | init : Reach desc (initMsgInfo desc)
  | alloc (m m' : ti_sci_xfers_info) (ty fl tx rx i : Nat) :
      Reach desc m →
      ti_sci_get_one_xfer desc.max_msg_size desc.host_id m ty fl tx rx =
        (m', AllocResult.ok i) →
      Reach desc m'
  | release (m : ti_sci_xfers_info) (i : Nat) :
      Reach desc m →
      nth false m.xfer_alloc_table i = true →
      Reach desc (ti_sci_put_one_xfer m i)
  | rx (m : ti_sci_xfers_info) (msg : ti_msgmgr_message) :
      Reach desc m →
      Reach desc (ti_sci_rx_callback desc.max_msg_size m msg).1

/-- The pool invariant: both tables have `max_msgs` entries, the
semaphore count plus the number of set bits equals `max_msgs` (the
gate is acquired and released exactly once per bit), and every
allocated slot carries its own index as its stamped sequence id and an
expected reply length of at least a header. -/
def PoolInv (desc : ti_sci_desc) (m : ti_sci_xfers_info) : Prop :=
  m.xfer_alloc_table.length = desc.max_msgs ∧
  m.xfer_block.length = desc.max_msgs ∧
  m.sem_xfer_count + countTrue m.xfer_alloc_table = desc.max_msgs ∧
  ∀ i : Nat, nth false m.xfer_alloc_table i = true →
    (nth xfer0 m.xfer_block i).txHdr.seq = i ∧
    hdrSize ≤ (nth xfer0 m.xfer_block i).rx_len

theorem reach_inv (desc : ti_sci_desc) (hd1 : desc.max_msgs < 256)
    (hd2 : desc.max_msg_size < 256) (m : ti_sci_xfers_info)
    (hm : Reach desc m) : PoolInv desc m := by
  induction hm with
  | init =>
    refine ⟨by simp [initMsgInfo], by simp [initMsgInfo], ?_, ?_⟩
    · simp [initMsgInfo, countTrue_replicate_false]
    · intro i hi
      simp [initMsgInfo, nth_replicate_false] at hi
  | alloc m m' ty fl tx rx i hm h ih =>
    obtain ⟨hLt, hLb, hSem, hSlots⟩ := ih
    obtain ⟨hrx, htx, hhdr, hs0, hi, hm'⟩ :=
      get_one_xfer_ok_shape _ _ _ _ _ _ _ _ _ h
    have hblt : find_first_zero_bit m.xfer_alloc_table <
        m.xfer_alloc_table.length :=
      ffz_lt_of_countTrue_lt _ (by rw [hLt]; omega)
    have hb256 : find_first_zero_bit m.xfer_alloc_table < 256 := by omega
    have hib : i = find_first_zero_bit m.xfer_alloc_table := by
      rw [hi, Nat.mod_eq_of_lt hb256]
    subst hib
    subst hm'
    have hz : nth false m.xfer_alloc_table
        (find_first_zero_bit m.xfer_alloc_table) = false := nth_ffz _ hblt
    refine ⟨by simp [length_setNth, hLt], by simp [length_modifyNth, hLb], ?_, ?_⟩
    · have hc := countTrue_setNth_true _ _ hz hblt
      simp only [hc]
      omega
    · intro j hj
      by_cases hjb : j = find_first_zero_bit m.xfer_alloc_table
      · have hbb : find_first_zero_bit m.xfer_alloc_table < m.xfer_block.length := by
          omega
        subst hjb
        rw [nth_modifyNth_eq xfer0 _ _ _ hbb]
        refine ⟨rfl, ?_⟩
        show hdrSize ≤ rx % 256
        rw [Nat.mod_eq_of_lt (show rx < 256 by omega)]
        exact hhdr
      · have hbj : find_first_zero_bit m.xfer_alloc_table ≠ j :=
          fun he => hjb he.symm
        rw [nth_setNth_ne false _ _ _ _ hbj] at hj
        rw [nth_modifyNth_ne xfer0 _ _ _ _ hbj]
        exact hSlots j hj
  | release m i hm hbit ih =>
    obtain ⟨hLt, hLb, hSem, hSlots⟩ := ih
    obtain ⟨hseq, hrxlen⟩ := hSlots i hbit
    have hilt : i < m.xfer_alloc_table.length := nth_true_lt_length _ _ hbit
    have hput : ti_sci_put_one_xfer m i =
        { m with
          xfer_alloc_table := setNth m.xfer_alloc_table i false
        , sem_xfer_count := m.sem_xfer_count + 1 } := by
      simp only [ti_sci_put_one_xfer]
      rw [hseq]
    rw [hput]
    refine ⟨?_, hLb, ?_, ?_⟩
    · show (setNth m.xfer_alloc_table i false).length = desc.max_msgs
      rw [length_setNth]
      exact hLt
    · show m.sem_xfer_count + 1 + countTrue (setNth m.xfer_alloc_table i false) =
        desc.max_msgs
      have hc := countTrue_setNth_false _ _ hbit
      omega
    · intro j hj
      have hj2 : nth false (setNth m.xfer_alloc_table i false) j = true := hj
      have hji : i ≠ j := by
        intro he
        subst he
        rw [nth_setNth_eq false _ _ _ hilt] at hj2
        simp at hj2
      rw [nth_setNth_ne false _ _ _ _ hji] at hj2
      show (nth xfer0 m.xfer_block j).txHdr.seq = j ∧
        hdrSize ≤ (nth xfer0 m.xfer_block j).rx_len
      exact hSlots j hj2
  | rx m msg hm ih =>
    obtain ⟨hLt, hLb, hSem, hSlots⟩ := ih
    obtain ⟨hf1, hf2, hf3, hf4⟩ := rx_callback_frame desc.max_msg_size m msg
    refine ⟨by rw [hf2]; exact hLt, by rw [hf3]; exact hLb,
      by rw [hf1, hf2]; exact hSem, ?_⟩
    intro j hj
    rw [hf2] at hj
    obtain ⟨ha, hb⟩ := hf4 j
    rw [ha, hb]
    exact hSlots j hj

/-- A size-valid allocation with a non-exhausted gate always succeeds,
returning the first clear bit (as a u8) and the updated state. -/
theorem get_one_xfer_success (max_msg_size host_id : Nat)
    (m : ti_sci_xfers_info) (ty fl tx rx : Nat)
    (h1 : rx ≤ max_msg_size) (h2 : tx ≤ max_msg_size) (h3 : hdrSize ≤ rx)
    (h4 : m.sem_xfer_count ≠ 0) :
    ti_sci_get_one_xfer max_msg_size host_id m ty fl tx rx =
    ({ sem_xfer_count := m.sem_xfer_count - 1
     , xfer_alloc_table :=
         setNth m.xfer_alloc_table (find_first_zero_bit m.xfer_alloc_table) true
     , xfer_block :=
         modifyNth
           (allocUpd host_id ty fl tx rx
             (find_first_zero_bit m.xfer_alloc_table % 256))
           m.xfer_block (find_first_zero_bit m.xfer_alloc_table % 256) },
     AllocResult.ok (find_first_zero_bit m.xfer_alloc_table % 256)) := by
  unfold ti_sci_get_one_xfer
  rw [if_neg (by omega), if_neg h4]
  rfl

/-- On a reachable state whose gate is not exhausted, a size-valid
allocation immediately followed by a release restores the semaphore
count and the allocation table exactly. -/
theorem alloc_put_restores (desc : ti_sci_desc) (hd1 : desc.max_msgs < 256)
    (hd2 : desc.max_msg_size < 256) (m : ti_sci_xfers_info)
    (hm : Reach desc m) (hsem : m.sem_xfer_count ≠ 0) (ty fl tx rx : Nat)
    (h1 : rx ≤ desc.max_msg_size) (h2 : tx ≤ desc.max_msg_size)
    (h3 : hdrSize ≤ rx) (m1 : ti_sci_xfers_info) (i : Nat)
    (h : ti_sci_get_one_xfer desc.max_msg_size desc.host_id m ty fl tx rx =
      (m1, AllocResult.ok i)) :
    (ti_sci_put_one_xfer m1 i).sem_xfer_count = m.sem_xfer_count ∧
    (ti_sci_put_one_xfer m1 i).xfer_alloc_table = m.xfer_alloc_table ∧
    (ti_sci_put_one_xfer m1 i).xfer_block.length = m.xfer_block.length := by
  obtain ⟨hLt, hLb, hSem, hSlots⟩ := reach_inv desc hd1 hd2 m hm
  have hblt : find_first_zero_bit m.xfer_alloc_table <
      m.xfer_alloc_table.length :=
    ffz_lt_of_countTrue_lt _ (by rw [hLt]; omega)
  have hb256 : find_first_zero_bit m.xfer_alloc_table % 256 =
      find_first_zero_bit m.xfer_alloc_table :=
    Nat.mod_eq_of_lt (by omega)
  rw [get_one_xfer_success _ _ _ _ _ _ _ h1 h2 h3 hsem] at h
  rw [Prod.mk.injEq] at h
  obtain ⟨hm1, hid⟩ := h
  cases hid
  rw [← hm1]
  have hbb : find_first_zero_bit m.xfer_alloc_table % 256 <
      m.xfer_block.length := by omega
  have hseq :
      (nth xfer0
        (modifyNth
          (allocUpd desc.host_id ty fl tx rx
            (find_first_zero_bit m.xfer_alloc_table % 256))
          m.xfer_block (find_first_zero_bit m.xfer_alloc_table % 256))
        (find_first_zero_bit m.xfer_alloc_table % 256)).txHdr.seq =
      find_first_zero_bit m.xfer_alloc_table % 256 := by
    rw [nth_modifyNth_eq xfer0 _ _ _ hbb]
    rfl
  refine ⟨?_, ?_, ?_⟩
  · show m.sem_xfer_count - 1 + 1 = m.sem_xfer_count
    omega
  · show setNth
        (setNth m.xfer_alloc_table (find_first_zero_bit m.xfer_alloc_table) true)
        ((nth xfer0
          (modifyNth
            (allocUpd desc.host_id ty fl tx rx
              (find_first_zero_bit m.xfer_alloc_table % 256))
            m.xfer_block (find_first_zero_bit m.xfer_alloc_table % 256))
          (find_first_zero_bit m.xfer_alloc_table % 256)).txHdr.seq) false =
      m.xfer_alloc_table
    rw [hseq, hb256, setNth_setNth]
    have hz : nth false m.xfer_alloc_table
        (find_first_zero_bit m.xfer_alloc_table) = false := nth_ffz _ hblt
    rw [← hz, setNth_nth_self false _ _ hblt]
  · show (modifyNth
        (allocUpd desc.host_id ty fl tx rx
          (find_first_zero_bit m.xfer_alloc_table % 256))
        m.xfer_block (find_first_zero_bit m.xfer_alloc_table % 256)).length =
      m.xfer_block.length
    exact length_modifyNth _ _ _

/-! ### Concrete fixtures used by the witnesses -/

/-- A small in-range description: two slots, 16-byte messages. -/
def descW : ti_sci_desc :=
  { host_id := 2, max_rx_timeout_ms := 200, max_msgs := 2, max_msg_size := 16 }

/-- The fresh pool for `descW`. -/
def mW0 : ti_sci_xfers_info := initMsgInfo descW

/-- The pool after one successful allocation (slot 0, rx_len 8). -/
def mW1 : ti_sci_xfers_info :=
  (ti_sci_get_one_xfer descW.max_msg_size descW.host_id mW0 5 0 8 8).1

/-- `mW1` is reachable. -/
theorem mW1_reach : Reach descW mW1 :=
  Reach.alloc mW0 mW1 5 0 8 8 0 Reach.init (by decide)

/-! ### The claims -/

/-- Claim C1: over every interleaving of allocate and (exactly paired)
release operations, the number of set bits in the allocation table
never exceeds `max_msgs`, and it always equals the admission-gate
deficit `max_msgs - sem_xfer_count`: the semaphore is decremented
before each bit is set and incremented after each bit is cleared,
exactly once each. -/
theorem claim_C1_gate_bound (desc : ti_sci_desc) (m : ti_sci_xfers_info)
    (hd1 : desc.max_msgs < 256) (hd2 : desc.max_msg_size < 256)
    (hm : Reach desc m) :
    countTrue m.xfer_alloc_table ≤ desc.max_msgs ∧
    desc.max_msgs - m.sem_xfer_count = countTrue m.xfer_alloc_table := by
  obtain ⟨hLt, hLb, hSem, hSlots⟩ := reach_inv desc hd1 hd2 m hm
  omega

theorem claim_C1_gate_bound_witness :
    countTrue mW1.xfer_alloc_table ≤ descW.max_msgs ∧
    descW.max_msgs - mW1.sem_xfer_count = countTrue mW1.xfer_alloc_table :=
  claim_C1_gate_bound descW mW1 (by decide) (by decide) mW1_reach

/-- Claim C4: an inbound message whose sequence id's allocation bit is
clear is discarded by the very first check: the state - every slot,
buffer, `rx_len`, completion flag, the table and the semaphore - is
returned unchanged, and the `notExpected` path raises nothing (the C
function returns void after a log). -/
theorem claim_C4_unexpected_no_effect (max_msg_size : Nat)
    (m : ti_sci_xfers_info) (msg : ti_msgmgr_message)
    (hbit : nth false m.xfer_alloc_table (msgSeq msg) = false) :
    ti_sci_rx_callback max_msg_size m msg = (m, RxResult.notExpected) := by
  unfold ti_sci_rx_callback
  simp [hbit]

/-- A message targeting unallocated slot 1 of `mW1`. -/
def msgUnexpected : ti_msgmgr_message :=
  { len := 8, buf := [9, 9, 9, 1, 9, 9, 9, 9] }

theorem claim_C4_unexpected_no_effect_witness :
    ti_sci_rx_callback descW.max_msg_size mW1 msgUnexpected =
      (mW1, RxResult.notExpected) :=
  claim_C4_unexpected_no_effect descW.max_msg_size mW1 msgUnexpected (by decide)

/-- Claim C6: `ti_sci_get_one_xfer` returns `-ERANGE` exactly when
`tx_message_size > max_msg_size`, `rx_message_size > max_msg_size` or
`rx_message_size < hdrSize`; and whenever that condition holds the
function returns with the state untouched - no semaphore credit
consumed and no table bit set - regardless of the semaphore count,
i.e. before the blocking gate acquisition is ever reached. -/
theorem claim_C6_range_check (max_msg_size host_id : Nat)
    (m : ti_sci_xfers_info) (ty fl tx rx : Nat) :
    ((ti_sci_get_one_xfer max_msg_size host_id m ty fl tx rx).2 =
        AllocResult.err (-ERANGE) ↔
      (max_msg_size < tx ∨ max_msg_size < rx ∨ rx < hdrSize)) ∧
    ((max_msg_size < tx ∨ max_msg_size < rx ∨ rx < hdrSize) →
      ti_sci_get_one_xfer max_msg_size host_id m ty fl tx rx =
        (m, AllocResult.err (-ERANGE))) := by
  have herr : (max_msg_size < tx ∨ max_msg_size < rx ∨ rx < hdrSize) →
      ti_sci_get_one_xfer max_msg_size host_id m ty fl tx rx =
        (m, AllocResult.err (-ERANGE)) := by
    intro h
    apply get_one_xfer_err_range
    omega
  refine ⟨⟨?_, fun h => by rw [herr h]⟩, herr⟩
  intro h
  by_contra hc
  push_neg at hc
  unfold ti_sci_get_one_xfer at h
  rw [if_neg (by omega)] at h
  by_cases hs : m.sem_xfer_count = 0
  · rw [if_pos hs] at h
    simp at h
    exact absurd h (by decide)
  · rw [if_neg hs] at h
    simp at h

theorem claim_C6_range_check_witness :
    ti_sci_get_one_xfer descW.max_msg_size descW.host_id mW0 0 0 20 8 =
      (mW0, AllocResult.err (-ERANGE)) :=
  (claim_C6_range_check descW.max_msg_size descW.host_id mW0 0 0 20 8).2
    (by decide)

/-- Claim C8 counterexample: releasing the same handle twice does
double-increment the admission gate.  In the 2-slot pool with slot 0
allocated, a single release leaves the semaphore at 2, a double release
at 3: `up(&minfo->sem_xfer_count)` in `ti_sci_put_one_xfer` is
unconditional, so the second call adds another credit. -/
theorem claim_C8_counterexample :
    (ti_sci_put_one_xfer (ti_sci_put_one_xfer mW1 0) 0).sem_xfer_count = 3 ∧
    (ti_sci_put_one_xfer mW1 0).sem_xfer_count = 2 ∧
    (ti_sci_put_one_xfer (ti_sci_put_one_xfer mW1 0) 0).sem_xfer_count ≠
      (ti_sci_put_one_xfer mW1 0).sem_xfer_count := by decide

/-- Claim C8 (amended): calling the release logic twice on the same
handle is idempotent on the allocation table - the second `clear_bit`
clears an already-clear bit - but not on the gate: the unconditional
`up` runs both times, so after the double release the semaphore count
exceeds the single-release count by exactly one.  Release is a
programming contract: it must be called exactly once per successful
allocation, as every call site in the driver does. -/
theorem claim_C8_double_release (m : ti_sci_xfers_info) (i : Nat) :
    (ti_sci_put_one_xfer (ti_sci_put_one_xfer m i) i).xfer_alloc_table =
      (ti_sci_put_one_xfer m i).xfer_alloc_table ∧
    (ti_sci_put_one_xfer (ti_sci_put_one_xfer m i) i).sem_xfer_count =
      (ti_sci_put_one_xfer m i).sem_xfer_count + 1 := by
  refine ⟨?_, rfl⟩
  show setNth (setNth m.xfer_alloc_table
      ((nth xfer0 m.xfer_block i).txHdr.seq) false)
      ((nth xfer0 m.xfer_block i).txHdr.seq) false =
    setNth m.xfer_alloc_table ((nth xfer0 m.xfer_block i).txHdr.seq) false
  exact setNth_setNth _ _ _ _

/-- Claim C9: the modelled probe prefix fails with `-EINVAL`, building
no slot pool, exactly when `max_msgs` is not strictly below
`2 ^ (8 * sizeof(seq))` = 256, the representable range of the header's
u8 sequence-id field; for an in-range `max_msgs` it proceeds to build
the fresh pool, so initialization never fails for this reason. -/
theorem claim_C9_seq_width_check (desc : ti_sci_desc) :
    (ti_sci_probe_init desc = ProbeResult.err (-EINVAL) ↔
      2 ^ (8 * sizeof_seq) ≤ desc.max_msgs) ∧
    (desc.max_msgs < 2 ^ (8 * sizeof_seq) →
      ti_sci_probe_init desc = ProbeResult.ok (initMsgInfo desc)) := by
  have hpow : (1 : Nat) <<< (8 * sizeof_seq) = 2 ^ (8 * sizeof_seq) := by
    rw [Nat.shiftLeft_eq, one_mul]
  unfold ti_sci_probe_init
  rw [hpow]
  by_cases h : 2 ^ (8 * sizeof_seq) ≤ desc.max_msgs
  · rw [if_pos h]
    exact ⟨⟨fun _ => h, fun _ => rfl⟩,
      fun hlt => absurd h (Nat.not_le.mpr hlt)⟩
  · rw [if_neg h]
    refine ⟨⟨fun hc => ?_, fun hc => absurd hc h⟩, fun _ => rfl⟩
    simp at hc

/-- An out-of-range description: 300 slots cannot be indexed by a u8. -/
def descBad : ti_sci_desc :=
  { host_id := 2, max_rx_timeout_ms := 200, max_msgs := 300, max_msg_size := 64 }

theorem claim_C9_seq_width_check_witness :
    ti_sci_probe_init descBad = ProbeResult.err (-EINVAL) ∧
    ti_sci_probe_init descW = ProbeResult.ok (initMsgInfo descW) :=
  ⟨(claim_C9_seq_width_check descBad).1.mpr (by decide),
   (claim_C9_seq_width_check descW).2 (by decide)⟩

/-- A 1-byte message (shorter than the 8-byte header) whose backing
buffer holds 0 at the seq offset. -/
def msgShortA : ti_msgmgr_message :=
  { len := 1, buf := [0, 0, 0, 0, 0, 0, 0, 0] }

/-- A 1-byte message identical to `msgShortA` except for the backing
byte at the header's seq offset (index 3) - a byte beyond the message's
single valid byte. -/
def msgShortB : ti_msgmgr_message :=
  { len := 1, buf := [0, 0, 0, 1, 0, 0, 0, 0] }

/-- Claim C2 counterexample: the router does not discard a short
message before using the header.  On the same state, two messages of
identical length 1 (< `hdrSize` = 8) that differ only in the buffer
byte at the header's seq offset - past the message's one valid byte -
take different paths through `ti_sci_rx_callback` (length-mismatch
discard for seq 0, unexpected-id discard for seq 1): the callback reads
and dispatches on `hdr->seq` before any length check. -/
theorem claim_C2_counterexample :
    msgShortA.len < hdrSize ∧ msgShortB.len = msgShortA.len ∧
    msgShortA.buf.length = msgShortB.buf.length ∧
    (ti_sci_rx_callback descW.max_msg_size mW1 msgShortA).2 ≠
      (ti_sci_rx_callback descW.max_msg_size mW1 msgShortB).2 := by decide

/-- Claim C2 (amended): on every reachable state, an inbound message
shorter than the fixed header is discarded without modifying any slot,
any allocation-table bit or any completion signal; but the discard is
not taken before the header is used - the callback first reads the
header's seq byte from the buffer (see the counterexample), and the
short message is then rejected either as unexpected (bit clear) or by
the `rx_len` length check, which every allocated slot passes only for
lengths ≥ `hdrSize`. -/
theorem claim_C2_short_discarded (desc : ti_sci_desc)
    (hd1 : desc.max_msgs < 256) (hd2 : desc.max_msg_size < 256)
    (m : ti_sci_xfers_info) (hm : Reach desc m)
    (msg : ti_msgmgr_message) (hlen : msg.len < hdrSize) :
    (ti_sci_rx_callback desc.max_msg_size m msg).1 = m := by
  rcases rx_callback_cases desc.max_msg_size m msg with ⟨-, h⟩ | ⟨hacc, -⟩
  · exact h
  · exfalso
    rw [rx_callback_accepted_iff] at hacc
    obtain ⟨hbit, hle, hrle⟩ := hacc
    obtain ⟨-, -, -, hSlots⟩ := reach_inv desc hd1 hd2 m hm
    obtain ⟨-, hrx⟩ := hSlots (msgSeq msg) hbit
    omega

theorem claim_C2_short_discarded_witness :
    (ti_sci_rx_callback descW.max_msg_size mW1 msgShortA).1 = mW1 :=
  claim_C2_short_discarded descW (by decide) (by decide) mW1 mW1_reach
    msgShortA (by decide)

/-- Claim C3: for a message whose sequence id's bit is set, acceptance
holds exactly when the length is at most `max_msg_size` and at least
the slot's `rx_len`; on acceptance exactly `rx_len` bytes are copied
into the slot's scratch buffer and its completion is signalled, on
rejection the state is untouched; the boundaries: a message of exactly
`rx_len` bytes (within `max_msg_size`) is accepted, one byte shorter is
discarded. -/
theorem claim_C3_length_validation (max_msg_size : Nat)
    (m : ti_sci_xfers_info) (msg : ti_msgmgr_message)
    (hbit : nth false m.xfer_alloc_table (msgSeq msg) = true) :
    ((ti_sci_rx_callback max_msg_size m msg).2 = RxResult.accepted ↔
      (msg.len ≤ max_msg_size ∧
       (nth xfer0 m.xfer_block (msgSeq msg)).rx_len ≤ msg.len)) ∧
    ((ti_sci_rx_callback max_msg_size m msg).2 = RxResult.accepted →
      (ti_sci_rx_callback max_msg_size m msg).1 =
        { m with xfer_block := (setNth m.xfer_block (msgSeq msg)
            (rxAccept msg (nth xfer0 m.xfer_block (msgSeq msg)))) }) ∧
    ((ti_sci_rx_callback max_msg_size m msg).2 ≠ RxResult.accepted →
      (ti_sci_rx_callback max_msg_size m msg).1 = m) ∧
    (msg.len = (nth xfer0 m.xfer_block (msgSeq msg)).rx_len →
      msg.len ≤ max_msg_size →
      (ti_sci_rx_callback max_msg_size m msg).2 = RxResult.accepted) ∧
    (msg.len + 1 = (nth xfer0 m.xfer_block (msgSeq msg)).rx_len →
      (ti_sci_rx_callback max_msg_size m msg).2 ≠ RxResult.accepted) := by
  have hiff := rx_callback_accepted_iff max_msg_size m msg
  refine ⟨?_, ?_, ?_, ?_, ?_⟩
  · rw [hiff]
    simp [hbit]
  · intro hacc
    rcases rx_callback_cases max_msg_size m msg with ⟨hne, -⟩ | ⟨-, h⟩
    · exact absurd hacc hne
    · exact h
  · intro hne
    rcases rx_callback_cases max_msg_size m msg with ⟨-, h⟩ | ⟨hacc, -⟩
    · exact h
    · exact absurd hacc hne
  · intro heq hle
    rw [hiff]
    exact ⟨hbit, hle, Nat.le_of_eq heq.symm⟩
  · intro heq hacc
    rw [hiff] at hacc
    omega

/-- A full 8-byte reply for slot 0 of `mW1` (seq byte 0 at offset 3). -/
def msgFull : ti_msgmgr_message :=
  { len := 8, buf := [1, 2, 3, 0, 4, 5, 6, 7] }

theorem claim_C3_length_validation_witness :
    (ti_sci_rx_callback descW.max_msg_size mW1 msgFull).2 =
      RxResult.accepted :=
  (claim_C3_length_validation descW.max_msg_size mW1 msgFull
    (by decide)).1.mpr (by decide)

/-- Claim C7: on any reachable state, a size-valid allocation with a
non-exhausted gate picks the lowest-numbered clear bit - which exists,
because gate capacity equals table size and the gate was acquired 1:1 -
sets it, stamps that very index as the sequence id into the outbound
header, and re-arms the slot's completion before the handle is
returned. -/
theorem claim_C7_lowest_clear_bit (desc : ti_sci_desc)
    (hd1 : desc.max_msgs < 256) (hd2 : desc.max_msg_size < 256)
    (m : ti_sci_xfers_info) (hm : Reach desc m)
    (hsem : m.sem_xfer_count ≠ 0) (ty fl tx rx : Nat)
    (h1 : rx ≤ desc.max_msg_size) (h2 : tx ≤ desc.max_msg_size)
    (h3 : hdrSize ≤ rx) :
    ∃ m' i,
      ti_sci_get_one_xfer desc.max_msg_size desc.host_id m ty fl tx rx =
        (m', AllocResult.ok i) ∧
      i < desc.max_msgs ∧
      nth false m.xfer_alloc_table i = false ∧
      (∀ j : Nat, j < i → nth false m.xfer_alloc_table j = true) ∧
      nth false m'.xfer_alloc_table i = true ∧
      (nth xfer0 m'.xfer_block i).txHdr.seq = i ∧
      (nth xfer0 m'.xfer_block i).done = false := by
  obtain ⟨hLt, hLb, hSem, hSlots⟩ := reach_inv desc hd1 hd2 m hm
  have hblt : find_first_zero_bit m.xfer_alloc_table <
      m.xfer_alloc_table.length :=
    ffz_lt_of_countTrue_lt _ (by rw [hLt]; omega)
  have hb256 : find_first_zero_bit m.xfer_alloc_table % 256 =
      find_first_zero_bit m.xfer_alloc_table :=
    Nat.mod_eq_of_lt (by omega)
  have hsucc := get_one_xfer_success desc.max_msg_size desc.host_id m
    ty fl tx rx h1 h2 h3 hsem
  rw [hb256] at hsucc
  refine ⟨_, find_first_zero_bit m.xfer_alloc_table, hsucc, by omega,
    nth_ffz _ hblt, fun j hj => nth_lt_ffz _ j hj, ?_, ?_, ?_⟩
  · show nth false (setNth m.xfer_alloc_table
      (find_first_zero_bit m.xfer_alloc_table) true)
      (find_first_zero_bit m.xfer_alloc_table) = true
    exact nth_setNth_eq false _ _ _ hblt
  · have hbb : find_first_zero_bit m.xfer_alloc_table <
        m.xfer_block.length := by omega
    show (nth xfer0 (modifyNth _ m.xfer_block
      (find_first_zero_bit m.xfer_alloc_table))
      (find_first_zero_bit m.xfer_alloc_table)).txHdr.seq =
      find_first_zero_bit m.xfer_alloc_table
    rw [nth_modifyNth_eq xfer0 _ _ _ hbb]
    rfl
  · have hbb : find_first_zero_bit m.xfer_alloc_table <
        m.xfer_block.length := by omega
    show (nth xfer0 (modifyNth _ m.xfer_block
      (find_first_zero_bit m.xfer_alloc_table))
      (find_first_zero_bit m.xfer_alloc_table)).done = false
    rw [nth_modifyNth_eq xfer0 _ _ _ hbb]
    rfl

theorem claim_C7_lowest_clear_bit_witness :
    ∃ m' i,
      ti_sci_get_one_xfer descW.max_msg_size descW.host_id mW1 7 0 8 8 =
        (m', AllocResult.ok i) ∧
      i < descW.max_msgs ∧
      nth false mW1.xfer_alloc_table i = false ∧
      (∀ j : Nat, j < i → nth false mW1.xfer_alloc_table j = true) ∧
      nth false m'.xfer_alloc_table i = true ∧
      (nth xfer0 m'.xfer_block i).txHdr.seq = i ∧
      (nth xfer0 m'.xfer_block i).done = false :=
  claim_C7_lowest_clear_bit descW (by decide) (by decide) mW1 mW1_reach
    (by decide) 7 0 8 8 (by decide) (by decide) (by decide)

/-- Claim C10: the transmit size has no lower bound - the guard in
`ti_sci_get_one_xfer` tests `rx_message_size < sizeof(*hdr)` twice and
never compares `tx_message_size` with the header size - so with the
receive-size preconditions satisfied, every `tx` from 0 to
`max_msg_size` inclusive (in particular sizes strictly below the
header) allocates successfully, records that `tx` as the transmit
length, and stamps the complete header (type, host, seq, flags) into
the slot. -/
theorem claim_C10_no_tx_lower_bound (desc : ti_sci_desc)
    (hd1 : desc.max_msgs < 256) (hd2 : desc.max_msg_size < 256)
    (m : ti_sci_xfers_info) (hm : Reach desc m)
    (hsem : m.sem_xfer_count ≠ 0) (ty fl tx rx : Nat)
    (htx : tx ≤ desc.max_msg_size) (hrx1 : hdrSize ≤ rx)
    (hrx2 : rx ≤ desc.max_msg_size) :
    ∃ m' i,
      ti_sci_get_one_xfer desc.max_msg_size desc.host_id m ty fl tx rx =
        (m', AllocResult.ok i) ∧
      (nth xfer0 m'.xfer_block i).txHdr =
        { type := ty, host := desc.host_id, seq := i, flags := fl } ∧
      (nth xfer0 m'.xfer_block i).tx_message_len = tx := by
  obtain ⟨hLt, hLb, hSem, hSlots⟩ := reach_inv desc hd1 hd2 m hm
  have hblt : find_first_zero_bit m.xfer_alloc_table <
      m.xfer_alloc_table.length :=
    ffz_lt_of_countTrue_lt _ (by rw [hLt]; omega)
  have hb256 : find_first_zero_bit m.xfer_alloc_table % 256 =
      find_first_zero_bit m.xfer_alloc_table :=
    Nat.mod_eq_of_lt (by omega)
  have hsucc := get_one_xfer_success desc.max_msg_size desc.host_id m
    ty fl tx rx hrx2 htx hrx1 hsem
  rw [hb256] at hsucc
  have hbb : find_first_zero_bit m.xfer_alloc_table <
      m.xfer_block.length := by omega
  refine ⟨_, find_first_zero_bit m.xfer_alloc_table, hsucc, ?_, ?_⟩
  · show (nth xfer0 (modifyNth _ m.xfer_block
      (find_first_zero_bit m.xfer_alloc_table))
      (find_first_zero_bit m.xfer_alloc_table)).txHdr =
      { type := ty, host := desc.host_id
      , seq := find_first_zero_bit m.xfer_alloc_table, flags := fl }
    rw [nth_modifyNth_eq xfer0 _ _ _ hbb]
    rfl
  · show (nth xfer0 (modifyNth _ m.xfer_block
      (find_first_zero_bit m.xfer_alloc_table))
      (find_first_zero_bit m.xfer_alloc_table)).tx_message_len = tx
    rw [nth_modifyNth_eq xfer0 _ _ _ hbb]
    rfl

theorem claim_C10_no_tx_lower_bound_witness :
    ∃ m' i,
      ti_sci_get_one_xfer descW.max_msg_size descW.host_id mW0 5 9 0 8 =
        (m', AllocResult.ok i) ∧
      (nth xfer0 m'.xfer_block i).txHdr =
        { type := 5, host := descW.host_id, seq := i, flags := 9 } ∧
      (nth xfer0 m'.xfer_block i).tx_message_len = 0 :=
  claim_C10_no_tx_lower_bound descW (by decide) (by decide) mW0 Reach.init
    (by decide) 5 9 0 8 (by decide) (by decide) (by decide)

/-- When the allocation inside `ti_sci_cmd_get_revision` succeeds, the
command runs the exchange and releases the slot before returning the
exchange's result. -/
theorem cmd_get_revision_ok (desc : ti_sci_desc)
    (m m1 : ti_sci_xfers_info) (i : Nat) (env : XferEnv)
    (h : ti_sci_get_one_xfer desc.max_msg_size desc.host_id m
        TI_SCI_MSG_VERSION 0 hdrSize sizeof_ti_sci_msg_resp_version =
      (m1, AllocResult.ok i)) :
    ti_sci_cmd_get_revision desc m env =
      (ti_sci_put_one_xfer m1 i, ti_sci_do_xfer env) := by
  unfold ti_sci_cmd_get_revision
  rw [h]

/-- Claim C5: whenever the exchange in `ti_sci_cmd_get_revision` fails
after a successful allocation - the transport send failed
(`env.sendRet < 0`) or no reply arrived within the response window -
the command returns exactly that negative send result, respectively
`-ETIMEDOUT`; the slot and its gate credit are released exactly once
before the return (semaphore count and allocation table are restored
to their pre-call values), and a subsequent allocation on the returned
state succeeds. -/
theorem claim_C5_failed_exchange_releases (desc : ti_sci_desc)
    (hd1 : desc.max_msgs < 256) (hd2 : desc.max_msg_size < 256)
    (m : ti_sci_xfers_info) (hm : Reach desc m)
    (hsem : m.sem_xfer_count ≠ 0)
    (hrv1 : hdrSize ≤ sizeof_ti_sci_msg_resp_version)
    (hrv2 : sizeof_ti_sci_msg_resp_version ≤ desc.max_msg_size)
    (env : XferEnv)
    (hfail : env.sendRet < 0 ∨ env.replyArrives = false) :
    (ti_sci_cmd_get_revision desc m env).2 =
      (if env.sendRet < 0 then env.sendRet else -ETIMEDOUT) ∧
    (ti_sci_cmd_get_revision desc m env).2 < 0 ∧
    (ti_sci_cmd_get_revision desc m env).1.sem_xfer_count =
      m.sem_xfer_count ∧
    (ti_sci_cmd_get_revision desc m env).1.xfer_alloc_table =
      m.xfer_alloc_table ∧
    ∃ m2 j,
      ti_sci_get_one_xfer desc.max_msg_size desc.host_id
        (ti_sci_cmd_get_revision desc m env).1 TI_SCI_MSG_VERSION 0 hdrSize
        sizeof_ti_sci_msg_resp_version = (m2, AllocResult.ok j) := by
  have htx : hdrSize ≤ desc.max_msg_size := le_trans hrv1 hrv2
  have hsucc := get_one_xfer_success desc.max_msg_size desc.host_id m
    TI_SCI_MSG_VERSION 0 hdrSize sizeof_ti_sci_msg_resp_version
    hrv2 htx hrv1 hsem
  have hcmd := cmd_get_revision_ok desc m _ _ env hsucc
  obtain ⟨hps, hpt, hpb⟩ := alloc_put_restores desc hd1 hd2 m hm hsem
    TI_SCI_MSG_VERSION 0 hdrSize sizeof_ti_sci_msg_resp_version
    hrv2 htx hrv1 _ _ hsucc
  have hdo : ti_sci_do_xfer env =
      (if env.sendRet < 0 then env.sendRet else -ETIMEDOUT) := by
    unfold ti_sci_do_xfer
    rcases hfail with h | h
    · rw [if_pos h, if_pos h]
    · rw [h]
      simp
  rw [hcmd]
  refine ⟨hdo, ?_, hps, hpt, ?_⟩
  · rw [hdo]
    split
    · assumption
    · show (-ETIMEDOUT : Int) < 0
      decide
  · refine ⟨_, _, get_one_xfer_success _ _ _ _ _ _ _ hrv2 htx hrv1 ?_⟩
    rw [hps]
    exact hsem

/-- A 2-slot description large enough for the version response. -/
def descV : ti_sci_desc :=
  { host_id := 2, max_rx_timeout_ms := 200, max_msgs := 2, max_msg_size := 64 }

/-- An exchange environment in which the send succeeds but no reply
ever arrives. -/
def envTimeout : XferEnv := { sendRet := 0, replyArrives := false }

theorem claim_C5_failed_exchange_releases_witness :
    (ti_sci_cmd_get_revision descV (initMsgInfo descV) envTimeout).2 =
      (if envTimeout.sendRet < 0 then envTimeout.sendRet else -ETIMEDOUT) ∧
    (ti_sci_cmd_get_revision descV (initMsgInfo descV) envTimeout).2 < 0 ∧
    (ti_sci_cmd_get_revision descV (initMsgInfo descV) envTimeout).1.sem_xfer_count =
      (initMsgInfo descV).sem_xfer_count ∧
    (ti_sci_cmd_get_revision descV (initMsgInfo descV) envTimeout).1.xfer_alloc_table =
      (initMsgInfo descV).xfer_alloc_table ∧
    ∃ m2 j,
      ti_sci_get_one_xfer descV.max_msg_size descV.host_id
        (ti_sci_cmd_get_revision descV (initMsgInfo descV) envTimeout).1
        TI_SCI_MSG_VERSION 0 hdrSize
        sizeof_ti_sci_msg_resp_version = (m2, AllocResult.ok j) :=
  claim_C5_failed_exchange_releases descV (by decide) (by decide)
    (initMsgInfo descV) Reach.init (by decide) (by decide) (by decide)
    envTimeout (Or.inr rfl)
